import Mathlib

/-!
Verification development for the zuzu repository.

Part 1 embeds the project-scaffolding script `src/generator.py` (the only
source file shipped under `src/`): pure string/path helpers, the
file-name similarity search `find_similar_files`, and the file copier
`copy_files`.  Filesystem effects (`os.listdir`, `os.path.exists`,
`shutil.copy2`, `os.makedirs`) are represented by an explicit state type
threaded through `copy_files`.

Part 2 models the findings pipeline described by the specification
(checker contract, suppression engine, aggregator, report synchronizer).
That pipeline's source is not part of `src/`, so each of those
definitions is modelled from the spec, as flagged in its doc comment.
-/

namespace ZuZu

/-! ### String helpers (embedding Python primitives)

All helpers are defined by structural recursion on character lists so
that concrete instances evaluate inside the kernel. -/

/-- Substring test on character lists, mirroring Python's `in` operator
on strings: an empty needle is contained in everything. -/
def containsSub (needle : List Char) : List Char → Bool
  | [] => needle.isEmpty
  | c :: cs => needle.isPrefixOf (c :: cs) || containsSub needle cs

/-- Substring containment on strings, mirroring Python's `needle in hay`. -/
def containsSubstr (needle hay : String) : Bool :=
  containsSub needle.data hay.data

/-- ASCII lowercasing, mirroring Python's `str.lower` on ASCII data. -/
def lowerStr (s : String) : String :=
  String.mk (s.data.map Char.toLower)

/-- One replacement step: `stripPrefixChars needle hay` returns the rest
of `hay` after `needle` when `needle` is a literal prefix of `hay`. -/
def stripPrefixChars : List Char → List Char → Option (List Char)
  | [], l => some l
  | _ :: _, [] => none
  | p :: ps, c :: cs => if p = c then stripPrefixChars ps cs else none

/-- Fuelled worker for `replaceAll`.  Fuel bounds the number of scanning
steps; `replaceAll` supplies the length of the string, which suffices for
a non-empty needle, giving Python's left-to-right non-overlapping
`str.replace` semantics. -/
def replaceFuel (needle repl : List Char) : Nat → List Char → List Char
  | _, [] => []
  | 0, l => l
  | fuel + 1, c :: cs =>
    match stripPrefixChars needle (c :: cs) with
    | some rest => repl ++ replaceFuel needle repl fuel rest
    | none => c :: replaceFuel needle repl fuel cs

/-- Python's `s.replace(needle, repl)` for a non-empty needle: replaces
every non-overlapping occurrence, scanning left to right. -/
def replaceAll (s needle repl : String) : String :=
  String.mk (replaceFuel needle.data repl.data s.data.length s.data)

/-- Boolean string-prefix test (Python `str.startswith`). -/
def strStartsWith (s p : String) : Bool :=
  p.data.isPrefixOf s.data

/-- Boolean string-suffix test (Python `str.endswith`). -/
def strEndsWith (s p : String) : Bool :=
  p.data.reverse.isPrefixOf s.data.reverse

/-! ### posix path helpers used by generator.py -/

/-- `os.path.join` for two components (posix semantics). -/
def pathJoin (a b : String) : String :=
  if strStartsWith b "/" then b
  else if a = "" then b
  else if strEndsWith a "/" then a ++ b
  else a ++ "/" ++ b

/-- `os.path.basename`: the component after the last slash. -/
def basename (p : String) : String :=
  String.mk (p.data.reverse.takeWhile (fun c => c ≠ '/')).reverse

/-- `os.path.dirname` (posix): everything up to the last slash, with
trailing slashes stripped unless the head consists only of slashes. -/
def dirname (p : String) : String :=
  match p.data.reverse.dropWhile (fun c => c ≠ '/') with
  | [] => ""
  | h =>
    match h.dropWhile (fun c => c = '/') with
    | [] => String.mk h.reverse
    | stripped => String.mk stripped.reverse

/-! ### src/generator.py: find_similar_files and copy_files -/

/-- Embedding of `find_similar_files(download_path, target_filename)`
from src/generator.py.  The directory listing `os.listdir(download_path)`
is passed explicitly as `download_files`.  Exact name matches win;
otherwise the first listed file whose lowercased name contains the
lowercased base name (the target with every `.txt` removed) is used. -/
def find_similar_files (download_files : List String)
    (download_path target_filename : String) : Option String :=
  if target_filename ∈ download_files then
    some (pathJoin download_path target_filename)
  else
    let base_name := replaceAll target_filename ".txt" ""
    match download_files.find?
        (fun file => containsSubstr (lowerStr base_name) (lowerStr file)) with
    | some file => some (pathJoin download_path file)
    | none => none

/-- Filesystem effects used by `copy_files`, abstracted over a state
type `σ`: `listdir` and `pathExists` observe the state, `copy2` and
`makedirs` transform it. -/
structure FSOps (σ : Type) where
  listdir : σ → String → List String
  pathExists : σ → String → Bool
  copy2 : σ → String → String → σ
  makedirs : σ → String → σ

/-- Python truthiness of `file_path and os.path.exists(file_path)`:
the candidate must be present, a non-empty string, and exist. -/
def truthyExists {σ : Type} (ops : FSOps σ) (s : σ) : Option String → Option String
  | none => none
  | some p => if p ≠ "" && ops.pathExists s p then some p else none

/-- Embedding of `copy_files(download_path, project_path, file_mapping)`
from src/generator.py.  Returns the `copied_files` log, the
`missing_files` list, and the final filesystem state.  The mapping dict
is a list of (source name, destination path) pairs in insertion order. -/
def copy_files {σ : Type} (ops : FSOps σ) (s : σ)
    (download_path project_path : String) :
    List (String × String) → List String × List String × σ
  | [] => ([], [], s)
  | (source_file, dest_path) :: rest =>
    let listing := ops.listdir s download_path
    match truthyExists ops s
        (find_similar_files listing download_path source_file) with
    | some file_path =>
      let full_dest_path := pathJoin project_path dest_path
      let s2 := ops.copy2 (ops.makedirs s (dirname full_dest_path))
        file_path full_dest_path
      let r := copy_files ops s2 download_path project_path rest
      ((source_file ++ " -> " ++ dest_path) :: r.1, r.2.1, r.2.2)
    | none =>
      let simplified_filename := replaceAll (basename source_file) ".txt" ""
      match truthyExists ops s
          (find_similar_files listing download_path simplified_filename) with
      | some file_path =>
        let full_dest_path := pathJoin project_path dest_path
        let s2 := ops.copy2 (ops.makedirs s (dirname full_dest_path))
          file_path full_dest_path
        let r := copy_files ops s2 download_path project_path rest
        ((simplified_filename ++ " -> " ++ dest_path) :: r.1, r.2.1, r.2.2)
      | none =>
        let r := copy_files ops s download_path project_path rest
        (r.1, dest_path :: r.2.1, r.2.2)

/-! ### Findings pipeline data model

Modelled from the spec: the pipeline's source is not under `src/`, so
the data model of section 3 of the spec is reproduced here. -/

/-- Modelled from the spec: finding severity, one of critical, warning,
info. -/
inductive Severity where
  | critical
  | warning
  | info
deriving DecidableEq

/-- Modelled from the spec: checker/category status, derived with the
priority critical over warning over pass; `error` is the status of a
checker whose run failed internally. -/
inductive Status where
  | critical
  | warning
  | pass
  | error
deriving DecidableEq

/-- Modelled from the spec: the atomic finding produced by a checker.
Free-text description fields are omitted; `issue` is the matching key. -/
structure Finding where
  category : String
  severity : Severity
  issue : String
  file : Option String := none
  line : Option Nat := none
deriving DecidableEq

/-- Per-category severity counters. -/
structure SeverityCounts where
  critical : Nat
  warning : Nat
  info : Nat
deriving DecidableEq

/-- Severity counts of a finding list. -/
def countsOf (fs : List Finding) : SeverityCounts :=
  fs.foldr
    (fun f acc =>
      match f.severity with
      | .critical => { acc with critical := acc.critical + 1 }
      | .warning => { acc with warning := acc.warning + 1 }
      | .info => { acc with info := acc.info + 1 })
    ⟨0, 0, 0⟩

/-- Modelled from the spec: status derivation, critical if any critical
finding, else warning if any warning finding, else pass. -/
def statusOfCounts (c : SeverityCounts) : Status :=
  if c.critical ≠ 0 then .critical
  else if c.warning ≠ 0 then .warning
  else .pass

/-- Modelled from the spec: the health score
max(0, 100 - 10*critical - 3*warning - 1*info), realised with truncated
natural subtraction; it is the single scoring function invoked by both
the one-shot renderer (`renderFull`) and the focused-sync renderer
(`renderSection`). -/
def healthScore (c : SeverityCounts) : Nat :=
  100 - (10 * c.critical + 3 * c.warning + c.info)

/-- Modelled from the spec: one checker invocation's result. -/
structure CheckerResult where
  category : String
  status : Status
  findings : List Finding
  metrics : List (String × Nat)
deriving DecidableEq

/-- Modelled from the spec: the checker-contract wrapper around a
checker's `run()` body.  A body that fails internally is an
`Except.error`; the wrapper never propagates it, converting it into a
`CheckerResult` with status `error` and a single critical finding
describing the failure. -/
def runChecker (category : String) (body : Except String CheckerResult) :
    CheckerResult :=
  match body with
  | .ok r => r
  | .error msg =>
    { category := category
      status := .error
      findings := [{ category := category, severity := .critical,
                     issue := "Checker failed: " ++ msg }]
      metrics := [] }

/-! ### Aggregator -/

/-- Modelled from the spec: the transient per-run aggregation of the
(post-suppression) checker results. -/
structure AggregatedReport where
  categories : List (String × Status × SeverityCounts)
  allFindings : List Finding
  totals : SeverityCounts
deriving DecidableEq

/-- Modelled from the spec: per-category counts and derived status, one
flat finding list, and summed totals, from an unordered result list. -/
def aggregate (results : List CheckerResult) : AggregatedReport :=
  let allFindings := results.flatMap (fun r => r.findings)
  { categories := results.map
      (fun r => (r.category, statusOfCounts (countsOf r.findings),
                 countsOf r.findings))
    allFindings := allFindings
    totals := countsOf allFindings }

/-- Overall run status, derived from the aggregated totals. -/
def reportStatus (r : AggregatedReport) : Status :=
  statusOfCounts r.totals

/-- Modelled from the spec: process exit code, 0 when no critical
findings remain post-suppression and 1 otherwise. -/
def exitCode (r : AggregatedReport) : Nat :=
  if r.totals.critical = 0 then 0 else 1

/-! ### Suppression engine -/

/-- Modelled from the spec: an exact suppression rule; `expires` is an
absolute timestamp, compared with the current time. -/
structure ExactRule where
  file : String
  line : Option Nat := none
  checker : Option String := none
  pattern : Option String := none
  justification : Option String := none
  expires : Option Nat := none
deriving DecidableEq

/-- Modelled from the spec: a path-pattern suppression rule with no line
constraint. -/
structure PatternRule where
  paths : List String
  checker : Option String := none
  pattern : Option String := none
  justification : Option String := none
deriving DecidableEq

/-- Modelled from the spec: the suppression store. -/
structure SuppressionConfig where
  suppressions : List ExactRule
  patterns : List PatternRule
  inline_markers : List String
deriving DecidableEq

/-- Glob matching on character lists with the `*` and `?` wildcards. -/
def globMatchAux : List Char → List Char → Bool
  | [], [] => true
  | [], _ :: _ => false
  | '*' :: ps, [] => globMatchAux ps []
  | '*' :: ps, c :: cs => globMatchAux ps (c :: cs) || globMatchAux ('*' :: ps) cs
  | '?' :: ps, _ :: cs => globMatchAux ps cs
  | p :: ps, c :: cs => p = c && globMatchAux ps cs
  | _ :: _, [] => false
termination_by p s => p.length + s.length
decreasing_by all_goals simp <;> omega

/-- Modelled from the spec: glob match of a path against a pattern. -/
def globMatch (pat s : String) : Bool :=
  globMatchAux pat.data s.data

/-- Modelled from the spec: path normalization applied before exact path
comparison; strips a leading `./`. -/
def normalizePath (p : String) : String :=
  match p.data with
  | '.' :: '/' :: rest => String.mk rest
  | _ => p

/-- Modelled from the spec: a rule path matches a finding path by exact
string equality after normalization, or glob match, or suffix match. -/
def pathRuleMatches (rulePath path : String) : Bool :=
  (normalizePath rulePath == normalizePath path)
    || globMatch rulePath path
    || strEndsWith path rulePath

/-- Modelled from the spec: an optional checker constraint requires
exact equality when present. -/
def checkerMatches : Option String → String → Bool
  | none, _ => true
  | some c, checker => c == checker

/-- Modelled from the spec: an optional issue-title pattern matches
case-insensitively as a substring search. -/
def patternMatches : Option String → String → Bool
  | none, _ => true
  | some p, issue => containsSubstr (lowerStr p) (lowerStr issue)

/-- Distance between two natural numbers (the absolute difference of the
reported and rule line numbers). -/
def natDist (a b : Nat) : Nat :=
  (a - b) + (b - a)

/-- Modelled from the spec: a rule that carries a line number matches a
reported line within a tolerance of 2; a rule without a line constraint
always matches; a rule with a line never matches a finding without one. -/
def lineMatches : Option Nat → Option Nat → Bool
  | none, _ => true
  | some rl, some l => decide (natDist l rl ≤ 2)
  | some _, none => false

/-- Modelled from the spec: an exact rule whose `expires` timestamp has
passed is inert. -/
def ruleExpired (now : Nat) (r : ExactRule) : Bool :=
  match r.expires with
  | none => false
  | some t => decide (t < now)

/-- Modelled from the spec: full matching predicate of one exact
suppression rule against one finding. -/
def exactRuleMatches (now : Nat) (r : ExactRule) (filePath : String)
    (line : Option Nat) (checker issue : String) : Bool :=
  !ruleExpired now r
    && pathRuleMatches r.file filePath
    && lineMatches r.line line
    && checkerMatches r.checker checker
    && patternMatches r.pattern issue

/-- Modelled from the spec: matching predicate of one pattern rule. -/
def patternRuleMatches (r : PatternRule) (filePath : String)
    (checker issue : String) : Bool :=
  r.paths.any (fun g => globMatch g filePath)
    && checkerMatches r.checker checker
    && patternMatches r.pattern issue

/-- Modelled from the spec: the audit-sentinel default for a rule that
omits its justification. -/
def justificationOf (j : Option String) : String :=
  j.getD "No justification provided"

/-- Modelled from the spec: default justification of an inline marker
with no trailing text. -/
def inlineDefaultJustification : String :=
  "Suppressed by inline comment"

/-- The rest of `hay` after the first occurrence of `needle`, or `none`
when `needle` does not occur. -/
def splitAfter (needle : List Char) : List Char → Option (List Char)
  | [] => none
  | c :: cs =>
    if needle.isPrefixOf (c :: cs) then some ((c :: cs).drop needle.length)
    else splitAfter needle cs

/-- Modelled from the spec: inline-marker check of a single line.  When
the line contains a configured marker, the justification is the trailing
text after `marker:`, defaulting to `inlineDefaultJustification` when
that text is absent or empty. -/
def inlineJustOfLine (markers : List String) (text : String) :
    Option String :=
  markers.findSome? (fun m =>
    if containsSubstr m text then
      some (match splitAfter (m ++ ":").data text.data with
            | some rest =>
              if rest.isEmpty then inlineDefaultJustification
              else String.mk rest
            | none => inlineDefaultJustification)
    else none)

/-- Index-driven scan of `count` lines starting at index `i`, stopping
at the first marker hit or at the end of the file. -/
def scanInlineFrom (markers : List String) (lines : List String) :
    Nat → Nat → Option String
  | _, 0 => none
  | i, n + 1 =>
    match lines[i]? with
    | none => none
    | some t =>
      match inlineJustOfLine markers t with
      | some j => some j
      | none => scanInlineFrom markers lines (i + 1) n

/-- Modelled from the spec: the inline-marker step scans the line window
[max(0, line-3), line), three lines of lookback excluding the target
line itself (truncated natural subtraction realises the max with 0). -/
def inlineCheck (markers : List String) (lines : List String)
    (line : Nat) : Option String :=
  scanInlineFrom markers lines (line - 3) (line - (line - 3))

/-- Line splitting of file content (Python `content.split("\n")`). -/
def splitLinesAux : List Char → List Char → List String
  | [], acc => [String.mk acc.reverse]
  | c :: cs, acc =>
    if c = '\n' then String.mk acc.reverse :: splitLinesAux cs []
    else splitLinesAux cs (c :: acc)

/-- Line splitting of file content (Python `content.split("\n")`). -/
def splitLines (s : String) : List String :=
  splitLinesAux s.data []

/-- Modelled from the spec: steps 2 and 3 of `isSuppressed` — the first
matching exact rule wins, then the first matching pattern rule; every
application surfaces a justification via the sentinel default. -/
def rulesStep (cfg : SuppressionConfig) (now : Nat) (filePath : String)
    (line : Option Nat) (checker issue : String) : Bool × Option String :=
  match cfg.suppressions.find?
      (fun r => exactRuleMatches now r filePath line checker issue) with
  | some r => (true, some (justificationOf r.justification))
  | none =>
    match cfg.patterns.find?
        (fun r => patternRuleMatches r filePath checker issue) with
    | some r => (true, some (justificationOf r.justification))
    | none => (false, none)

/-- Modelled from the spec: the suppression engine's public operation.
The inline-marker step runs first when both `fileContent` and `line` are
given; first match wins. -/
def isSuppressed (cfg : SuppressionConfig) (now : Nat) (filePath : String)
    (line : Option Nat) (checker issue : String)
    (fileContent : Option String) : Bool × Option String :=
  match fileContent, line with
  | some content, some l =>
    match inlineCheck cfg.inline_markers (splitLines content) l with
    | some j => (true, some j)
    | none => rulesStep cfg now filePath (some l) checker issue
  | _, _ => rulesStep cfg now filePath line checker issue

/-! ### Report synchronizer

Modelled from the spec: the persisted document is a flat line sequence
with an explicitly versioned section grammar — a top-level header line
per category, fixed-schema status/counts lines, free text, and a closing
timestamp marker.  Byte-identity of documents is equality of the line
sequences. -/

/-- One line of the persisted report document. -/
inductive DocLine where
  | header (category : String)
  | statusLine (status : Status) (score : Nat)
  | countsLine (critical warning info : Nat)
  | textLine (text : String)
  | marker (timestamp : String)
deriving DecidableEq

/-- Section boundaries: a top-level header or the closing marker. -/
def isBoundary : DocLine → Bool
  | .header _ => true
  | .marker _ => true
  | _ => false

/-- The closing timestamp marker. -/
def isMarker : DocLine → Bool
  | .marker _ => true
  | _ => false

/-- Does a line list start with a section boundary (or end at once)? -/
def headBoundary : List DocLine → Bool
  | [] => true
  | l :: _ => isBoundary l

/-- Modelled from the spec: the rendered section for one category —
header, last-updated timestamp, status glyph with score, counts table,
link to the category's detail file.  The score comes from the shared
`healthScore`. -/
def renderSection (ts category : String) (st : Status)
    (c : SeverityCounts) : List DocLine :=
  [ .header category,
    .textLine ("Last updated: " ++ ts),
    .statusLine st (healthScore c),
    .countsLine c.critical c.warning c.info,
    .textLine ("Details: " ++ category ++ "-report.md") ]

/-- Does the document contain the top-level header of `category`? -/
def containsHeader (category : String) : List DocLine → Bool
  | [] => false
  | l :: ls =>
    if l = DocLine.header category then true else containsHeader category ls

/-- Drop a section body: everything up to the next boundary line. -/
def dropSectionBody (ls : List DocLine) : List DocLine :=
  ls.dropWhile (fun l => !isBoundary l)

/-- Modelled from the spec: replace exactly the section of `category` —
from its header to the next boundary — with the new section text. -/
def replaceExisting (category : String) (new : List DocLine) :
    List DocLine → List DocLine
  | [] => []
  | l :: ls =>
    if l = DocLine.header category then new ++ dropSectionBody ls
    else l :: replaceExisting category new ls

/-- Modelled from the spec: insert the new section immediately before
the closing timestamp marker, or append when no marker exists. -/
def insertBeforeMarker (new : List DocLine) : List DocLine → List DocLine
  | [] => new
  | l :: ls =>
    if isMarker l then new ++ l :: ls
    else l :: insertBeforeMarker new ls

/-- Modelled from the spec: focused-mode section merge — replace the
existing section when its header is present, insert before the closing
marker otherwise. -/
def mergeSection (category : String) (new : List DocLine)
    (doc : List DocLine) : List DocLine :=
  if containsHeader category doc then replaceExisting category new doc
  else insertBeforeMarker new doc

/-- Modelled from the spec: the minimal skeleton synthesized when no
prior document exists — a title plus the closing timestamp marker. -/
def skeletonDoc (title ts : String) : List DocLine :=
  [.textLine title, .marker ts]

/-- Focused-mode document synchronization for one category. -/
def syncDocument (ts category : String) (st : Status) (c : SeverityCounts)
    (doc : List DocLine) : List DocLine :=
  mergeSection category (renderSection ts category st c) doc

/-- First status line of a section body. -/
def extractStatusLine : List DocLine → Option (Status × Nat)
  | [] => none
  | .statusLine st sc :: _ => some (st, sc)
  | _ :: ls => extractStatusLine ls

/-- First counts line of a section body. -/
def extractCountsLine : List DocLine → Option SeverityCounts
  | [] => none
  | .countsLine c w i :: _ => some ⟨c, w, i⟩
  | _ :: ls => extractCountsLine ls

/-- Parsed per-category section data: the fields the document grammar
renders and the partial-mode parser reads back. -/
structure SectionData where
  category : String
  status : Status
  score : Nat
  counts : SeverityCounts
deriving DecidableEq

/-- Section data recovered from one section body, when parseable. -/
def sectionDataOf (category : String) (body : List DocLine) :
    Option SectionData :=
  match extractStatusLine body, extractCountsLine body with
  | some (st, sc), some c => some ⟨category, st, sc, c⟩
  | _, _ => none

/-- Modelled from the spec: re-parse every section of a document into
per-category section data; unparseable sections are skipped. -/
def parseSections : List DocLine → List SectionData
  | [] => []
  | DocLine.header c :: ls =>
    (match sectionDataOf c (ls.takeWhile (fun l => !isBoundary l)) with
     | some sd => sd :: parseSections (ls.dropWhile (fun l => !isBoundary l))
     | none => parseSections (ls.dropWhile (fun l => !isBoundary l)))
  | DocLine.statusLine _ _ :: ls => parseSections ls
  | DocLine.countsLine _ _ _ :: ls => parseSections ls
  | DocLine.textLine _ :: ls => parseSections ls
  | DocLine.marker _ :: ls => parseSections ls
termination_by l => l.length
decreasing_by
  all_goals simp only [List.length_cons]
  all_goals first
    | exact Nat.lt_succ_of_le (List.dropWhile_sublist _).length_le
    | exact Nat.lt_succ_self _

/-- The rendered text of a category's section in a document: its header
line together with its body, up to the next boundary. -/
def extractSection (category : String) : List DocLine → Option (List DocLine)
  | [] => none
  | l :: ls =>
    if l = DocLine.header category then
      some (l :: ls.takeWhile (fun x => !isBoundary x))
    else extractSection category ls

/-- Modelled from the spec: the full-mode renderer — title, one rendered
section per category of the aggregation, closing timestamp marker. -/
def renderFull (title ts : String)
    (secs : List (String × Status × SeverityCounts)) : List DocLine :=
  DocLine.textLine title ::
    (secs.flatMap (fun p => renderSection ts p.1 p.2.1 p.2.2)
      ++ [DocLine.marker ts])

/-- Componentwise sum of severity counters. -/
def sumCounts (l : List SeverityCounts) : SeverityCounts :=
  l.foldr
    (fun a b => ⟨a.critical + b.critical, a.warning + b.warning,
                 a.info + b.info⟩)
    ⟨0, 0, 0⟩

/-- Modelled from the spec: the structured snapshot, a pure function of
the resulting document's parsed sections plus the per-category findings
carried over from the previous snapshot; global metrics are recomputed
over all currently known category entries (average score, summed
counts). -/
structure Snapshot where
  sections : List SectionData
  findingsByCategory : List (String × List Finding)
  overallStatus : Status
  overallScore : Nat
  totals : SeverityCounts
deriving DecidableEq

/-- Snapshot derivation from a document and a findings table. -/
def snapshotOfDoc (doc : List DocLine)
    (findingsByCategory : List (String × List Finding)) : Snapshot :=
  let secs := parseSections doc
  let totals := sumCounts (secs.map (fun sd => sd.counts))
  { sections := secs
    findingsByCategory := findingsByCategory
    overallStatus := statusOfCounts totals
    overallScore :=
      if secs.length = 0 then 100
      else (secs.map (fun sd => sd.score)).foldr (· + ·) 0 / secs.length
    totals := totals }

/-- Replace (or append) the findings stored for one category. -/
def setFindings (category : String) (fs : List Finding) :
    List (String × List Finding) → List (String × List Finding)
  | [] => [(category, fs)]
  | (c, g) :: rest =>
    if c = category then (c, fs) :: rest
    else (c, g) :: setFindings category fs rest

/-- The pair of persisted artifacts: document and snapshot. -/
structure ReportState where
  doc : List DocLine
  snap : Snapshot
deriving DecidableEq

/-- Modelled from the spec: one focused-mode synchronization run for one
category — locate or synthesize the prior document, merge the freshly
rendered section, and re-derive the snapshot from the resulting document
(carrying the other categories' findings over from the prior
snapshot). -/
def syncRun (title ts category : String) (st : Status) (c : SeverityCounts)
    (fs : List Finding) (prior : Option ReportState) : ReportState :=
  let doc0 := match prior with
    | some r => r.doc
    | none => skeletonDoc title ts
  let priorFindings := match prior with
    | some r => r.snap.findingsByCategory
    | none => []
  let doc1 := syncDocument ts category st c doc0
  { doc := doc1
    snap := snapshotOfDoc doc1 (setFindings category fs priorFindings) }

/-- Scenario input from the spec: checker A emits two critical findings. -/
def checkerResultA : CheckerResult :=
  { category := "A"
    status := .critical
    findings := [{ category := "A", severity := .critical, issue := "a1" },
                 { category := "A", severity := .critical, issue := "a2" }]
    metrics := [] }

/-- Scenario input from the spec: checker B emits one warning finding. -/
def checkerResultB : CheckerResult :=
  { category := "B"
    status := .warning
    findings := [{ category := "B", severity := .warning, issue := "b1" }]
    metrics := [] }

/-! ### Theorems -/

/-- The critical counter of `countsOf` vanishes exactly when no finding
in the list is critical. -/
theorem countsOf_critical_eq_zero (fs : List Finding) :
    (countsOf fs).critical = 0 ↔ ∀ f ∈ fs, f.severity ≠ Severity.critical := by
  induction fs with
  | nil => simp [countsOf]
  | cons f fs ih =>
    simp only [countsOf, List.foldr_cons] at ih ⊢
    cases h : f.severity <;>
      simp [h, ih, List.forall_mem_cons]

/-- C9: every entry of the file mapping lands in exactly one of the two
result lists of `copy_files`: the number of copied entries plus the
number of missing entries equals the number of mapping entries, for any
filesystem behaviour. -/
theorem copy_files_partition {σ : Type} (ops : FSOps σ) (s : σ)
    (dp pp : String) (mapping : List (String × String)) :
    (copy_files ops s dp pp mapping).1.length
      + (copy_files ops s dp pp mapping).2.1.length = mapping.length := by
  induction mapping generalizing s with
  | nil => simp [copy_files]
  | cons hd tl ih =>
    obtain ⟨sf, dpth⟩ := hd
    have key : ∀ (S : σ) (x : String),
        ((x :: (copy_files ops S dp pp tl).1).length
          + (copy_files ops S dp pp tl).2.1.length = tl.length + 1) := by
      intro S x
      have h := ih S
      simp only [List.length_cons]
      omega
    simp only [copy_files]
    split
    · exact key _ _
    · split
      · exact key _ _
      · have h := ih s
        simp only [List.length_cons]
        omega

/-- C10: `find_similar_files` returns the download-path join of the
target name whenever the target is listed exactly, and returns none when
there is neither an exact match nor a listed file containing the
target's base name case-insensitively. -/
theorem find_similar_files_spec (files : List String) (dp target : String) :
    (target ∈ files →
      find_similar_files files dp target = some (pathJoin dp target))
    ∧ (target ∉ files →
        (∀ f ∈ files,
          containsSubstr (lowerStr (replaceAll target ".txt" ""))
            (lowerStr f) = false) →
        find_similar_files files dp target = none) := by
  constructor
  · intro h
    simp [find_similar_files, h]
  · intro h hall
    have hnone : files.find?
        (fun file => containsSubstr (lowerStr (replaceAll target ".txt" ""))
          (lowerStr file)) = none :=
      List.find?_eq_none.mpr (fun x hx => by simp [hall x hx])
    simp [find_similar_files, h, hnone]

/-- Witness for C10 at concrete inputs: an exact listing hit and a
listing with no similar name. -/
theorem find_similar_files_spec_witness :
    find_similar_files ["readme.txt", "notes.md"] "dl" "readme.txt"
        = some (pathJoin "dl" "readme.txt")
    ∧ find_similar_files ["notes.md"] "dl" "readme.txt" = none := by
  constructor
  · exact (find_similar_files_spec ["readme.txt", "notes.md"] "dl"
      "readme.txt").1 (by decide)
  · exact (find_similar_files_spec ["notes.md"] "dl" "readme.txt").2
      (by decide) (by decide)

/-- C4: the health score agrees with max(0, 100 - 10c - 3w - i) over the
integers, gives 81 at (1, 2, 3) and 100 at (0, 0, 0), and is never
negative; `renderSection` (focused path) and `renderFull` (one-shot
path) both score through this one function. -/
theorem health_score_formula :
    (∀ c w i : Nat, (healthScore ⟨c, w, i⟩ : Int)
        = max 0 (100 - 10 * (c : Int) - 3 * (w : Int) - (i : Int)))
    ∧ healthScore ⟨1, 2, 3⟩ = 81
    ∧ healthScore ⟨0, 0, 0⟩ = 100
    ∧ (∀ cnt : SeverityCounts, 0 ≤ (healthScore cnt : Int)) := by
  refine ⟨fun c w i => ?_, rfl, rfl, fun cnt => Int.natCast_nonneg _⟩
  simp only [healthScore, max_def]
  split <;> omega

/-- C7: the checker wrapper converts an internal failure into a
`CheckerResult` with status error and exactly one critical finding
describing the failure, and passes successful results through; being a
total function, it propagates no exception past the checker boundary. -/
theorem checker_error_contract (category msg : String) :
    (runChecker category (Except.error msg)).status = Status.error
    ∧ (runChecker category (Except.error msg)).findings
        = [{ category := category, severity := Severity.critical,
             issue := "Checker failed: " ++ msg }]
    ∧ (∀ r : CheckerResult, runChecker category (Except.ok r) = r) :=
  ⟨rfl, rfl, fun _ => rfl⟩

/-- C8: the exit code is 0 exactly when no critical finding remains in
the (post-suppression) aggregation and 1 otherwise; the spec's scenario
of two critical findings from A and one warning from B exits 1 with
overall status critical. -/
theorem exit_code_spec :
    (∀ results : List CheckerResult,
        (exitCode (aggregate results) = 0 ↔
          ∀ f ∈ (aggregate results).allFindings,
            f.severity ≠ Severity.critical)
        ∧ (exitCode (aggregate results) = 0
            ∨ exitCode (aggregate results) = 1))
    ∧ exitCode (aggregate [checkerResultA, checkerResultB]) = 1
    ∧ reportStatus (aggregate [checkerResultA, checkerResultB])
        = Status.critical := by
  refine ⟨fun results => ⟨?_, ?_⟩, rfl, rfl⟩
  · have htot : (aggregate results).totals
        = countsOf ((aggregate results).allFindings) := rfl
    rw [exitCode, htot]
    rcases Nat.eq_zero_or_pos (countsOf ((aggregate results).allFindings)).critical
      with h | h
    · simp only [if_pos h, true_iff]
      exact (countsOf_critical_eq_zero _).mp h
    · have hne : (countsOf ((aggregate results).allFindings)).critical ≠ 0 :=
        Nat.pos_iff_ne_zero.mp h
      simp only [if_neg hne]
      constructor
      · intro hc
        exact absurd hc (by omega)
      · intro hall
        exact absurd ((countsOf_critical_eq_zero _).mpr hall) hne
  · rw [exitCode]
    split <;> simp

/-- C5: an unexpired exact rule carrying a line number, whose path,
checker, and pattern constraints match, suppresses a finding exactly
when the reported line is within 2 of the rule's line — both at the
matcher and through `isSuppressed` with that single rule. -/
theorem exact_suppression_line_tolerance (now : Nat) (r : ExactRule)
    (path : String) (l rl : Nat) (checker issue : String)
    (hline : r.line = some rl)
    (hexp : ruleExpired now r = false)
    (hpath : pathRuleMatches r.file path = true)
    (hchk : checkerMatches r.checker checker = true)
    (hpat : patternMatches r.pattern issue = true) :
    (exactRuleMatches now r path (some l) checker issue = true
        ↔ natDist l rl ≤ 2)
    ∧ ((isSuppressed ⟨[r], [], []⟩ now path (some l) checker issue none).1
          = true ↔ natDist l rl ≤ 2) := by
  have hmain : exactRuleMatches now r path (some l) checker issue
      = decide (natDist l rl ≤ 2) := by
    simp [exactRuleMatches, hexp, hpath, hchk, hpat, lineMatches, hline]
  have hiff : exactRuleMatches now r path (some l) checker issue = true
      ↔ natDist l rl ≤ 2 := by
    rw [hmain]
    exact decide_eq_true_iff
  refine ⟨hiff, ?_⟩
  by_cases hd : natDist l rl ≤ 2
  · have ht := hiff.mpr hd
    simp [isSuppressed, rulesStep, List.find?_cons_of_pos, ht, hd]
  · have hf : exactRuleMatches now r path (some l) checker issue = false := by
      rw [hmain]
      simpa using hd
    simp [isSuppressed, rulesStep, List.find?, hf, hd]

/-- Witness for C5 at a concrete rule: a finding 2 lines away matches,
one 3 lines away does not. -/
theorem exact_suppression_line_tolerance_witness :
    exactRuleMatches 0
        ⟨"src/app.py", some 10, some "security", none, some "ok", none⟩
        "src/app.py" (some 12) "security" "SQL injection" = true
    ∧ exactRuleMatches 0
        ⟨"src/app.py", some 10, some "security", none, some "ok", none⟩
        "src/app.py" (some 13) "security" "SQL injection" = false := by
  have h12 := exact_suppression_line_tolerance 0
    ⟨"src/app.py", some 10, some "security", none, some "ok", none⟩
    "src/app.py" 12 10 "security" "SQL injection" rfl rfl (by decide)
    (by decide) rfl
  have h13 := exact_suppression_line_tolerance 0
    ⟨"src/app.py", some 10, some "security", none, some "ok", none⟩
    "src/app.py" 13 10 "security" "SQL injection" rfl rfl (by decide)
    (by decide) rfl
  refine ⟨h12.1.mpr (by decide), ?_⟩
  cases heq : exactRuleMatches 0
      ⟨"src/app.py", some 10, some "security", none, some "ok", none⟩
      "src/app.py" (some 13) "security" "SQL injection" with
  | false => rfl
  | true => exact absurd (h13.1.mp heq) (by decide)

/-- A character list is contained in itself followed by anything. -/
theorem containsSub_append_self (l rest : List Char) :
    containsSub l (l ++ rest) = true := by
  cases l with
  | nil =>
    cases rest with
    | nil => rfl
    | cons c cs => simp [containsSub]
  | cons c cs =>
    have hp : (c :: cs).isPrefixOf ((c :: cs) ++ rest) = true :=
      List.isPrefixOf_iff_prefix.mpr (List.prefix_append _ _)
    simp [containsSub, hp]

/-- A character list is contained in itself. -/
theorem containsSub_self (l : List Char) : containsSub l l = true := by
  have h := containsSub_append_self l []
  simpa using h

/-- A needle longer than the haystack never occurs in it. -/
theorem splitAfter_eq_none_of_lt (needle : List Char) :
    ∀ hay : List Char, hay.length < needle.length →
      splitAfter needle hay = none := by
  intro hay
  induction hay with
  | nil => intro _; rfl
  | cons c cs ih =>
    intro h
    have hnp : ¬ needle.isPrefixOf (c :: cs) = true := by
      intro hp
      have := (List.isPrefixOf_iff_prefix.mp hp).length_le
      omega
    simp only [splitAfter, if_neg hnp]
    exact ih (by simpa using Nat.lt_of_succ_lt h)

/-- Splitting after a non-empty needle placed at the front returns
exactly the rest. -/
theorem splitAfter_self_append (nd rest : List Char) (h : nd ≠ []) :
    splitAfter nd (nd ++ rest) = some rest := by
  cases nd with
  | nil => exact absurd rfl h
  | cons c cs =>
    have hp : (c :: cs).isPrefixOf (c :: (cs ++ rest)) = true := by
      rw [← List.cons_append]
      exact List.isPrefixOf_iff_prefix.mpr (List.prefix_append _ _)
    simp only [List.cons_append, splitAfter, List.append_eq]
    rw [if_pos hp]
    rw [show c :: (cs ++ rest) = (c :: cs) ++ rest from rfl, List.drop_left]

/-- The index-driven inline scan reads exactly the take/drop window. -/
theorem scanInlineFrom_eq_window (markers lines : List String) :
    ∀ (n i : Nat), scanInlineFrom markers lines i n
      = ((lines.drop i).take n).findSome? (inlineJustOfLine markers) := by
  intro n
  induction n with
  | zero => intro i; simp [scanInlineFrom]
  | succ n ih =>
    intro i
    cases h : lines[i]? with
    | none =>
      have hle : lines.length ≤ i := List.getElem?_eq_none_iff.mp h
      rw [List.drop_eq_nil_of_le hle]
      simp [scanInlineFrom, h]
    | some t =>
      have hlt : i < lines.length := by
        by_contra hge
        rw [List.getElem?_eq_none (Nat.le_of_not_lt hge)] at h
        cases h
      have hget : lines[i] = t := by
        have h2 := List.getElem?_eq_getElem hlt
        rw [h2] at h
        exact Option.some.inj h
      rw [List.drop_eq_getElem_cons hlt, hget, List.take_succ_cons,
        List.findSome?_cons]
      simp only [scanInlineFrom, h]
      cases hj : inlineJustOfLine markers t with
      | some jj => simp [hj]
      | none => simp [hj, ih (i + 1)]

/-- C6: with both file content and line given, the inline-marker step of
`isSuppressed` scans exactly the half-open window [max(0, line-3), line)
— three lines of lookback, excluding the target line — and a marker hit
yields the trailing text after the marker colon as justification,
defaulting to "Suppressed by inline comment" when that text is empty or
absent. -/
theorem inline_window_spec :
    (∀ (cfg : SuppressionConfig) (now : Nat) (path : String) (l : Nat)
        (checker issue content j : String),
        inlineCheck cfg.inline_markers (splitLines content) l = some j →
        isSuppressed cfg now path (some l) checker issue (some content)
          = (true, some j))
    ∧ (∀ (markers lines : List String) (l : Nat),
        inlineCheck markers lines l
          = ((lines.drop (l - 3)).take (min 3 l)).findSome?
              (inlineJustOfLine markers))
    ∧ (∀ m : String,
        inlineJustOfLine [m] m = some inlineDefaultJustification)
    ∧ (∀ m j : String,
        inlineJustOfLine [m] (m ++ ":" ++ j)
          = some (if j = "" then inlineDefaultJustification else j)) := by
  refine ⟨?_, ?_, ?_, ?_⟩
  · intro cfg now path l checker issue content j h
    simp [isSuppressed, h]
  · intro markers lines l
    rw [inlineCheck, scanInlineFrom_eq_window]
    rw [show l - (l - 3) = min 3 l by omega]
  · intro m
    have hc : containsSubstr m m = true := containsSub_self m.data
    have hn : splitAfter (m.data ++ [':']) m.data = none := by
      apply splitAfter_eq_none_of_lt
      simp
    simp [inlineJustOfLine, List.findSome?_cons, hc, hn]
  · intro m j
    have hcolon : (m ++ ":").data = m.data ++ [':'] := by
      rw [String.data_append]
    have hdata : (m ++ ":" ++ j).data = (m ++ ":").data ++ j.data := by
      rw [String.data_append]
    have hc : containsSubstr m (m ++ ":" ++ j) = true := by
      rw [containsSubstr, hdata, hcolon, List.append_assoc]
      exact containsSub_append_self m.data ([':'] ++ j.data)
    have hs : splitAfter (m ++ ":").data (m ++ ":" ++ j).data
        = some j.data := by
      rw [hdata]
      apply splitAfter_self_append
      rw [hcolon]
      simp
    simp only [inlineJustOfLine, List.findSome?_cons, hc, if_pos, hs]
    obtain ⟨jd⟩ := j
    cases jd with
    | nil => simp
    | cons c cs =>
      have hne : ¬ (String.mk (c :: cs) = "") := by
        intro hemp
        exact List.cons_ne_nil c cs (congrArg String.data hemp)
      simp only [List.isEmpty_cons, if_neg hne]
      rw [if_neg]
      intro hb
      cases hb

/-- Witness for C6: an inline marker with trailing text two lines above
the target line suppresses with that text as justification. -/
theorem inline_window_spec_witness :
    isSuppressed ⟨[], [], ["zuzu-ignore"]⟩ 0 "a.py" (some 5) "security"
        "Issue" (some "a\nb\nc zuzu-ignore:ok\nd\ne\ntarget")
      = (true, some "ok") :=
  inline_window_spec.1 ⟨[], [], ["zuzu-ignore"]⟩ 0 "a.py" 5 "security"
    "Issue" "a\nb\nc zuzu-ignore:ok\nd\ne\ntarget" "ok" (by decide)

/-! ### Report synchronizer lemmas -/

/-- Unfold equation for `replaceExisting` on a cons cell. -/
theorem replaceExisting_cons (X : String) (new : List DocLine)
    (l : DocLine) (ls : List DocLine) :
    replaceExisting X new (l :: ls)
      = if l = DocLine.header X then new ++ dropSectionBody ls
        else l :: replaceExisting X new ls := rfl

/-- Unfold equation for `insertBeforeMarker` on a cons cell. -/
theorem insertBeforeMarker_cons (new : List DocLine) (l : DocLine)
    (ls : List DocLine) :
    insertBeforeMarker new (l :: ls)
      = if isMarker l then new ++ l :: ls
        else l :: insertBeforeMarker new ls := rfl

/-- Unfold equation for `containsHeader` on a cons cell. -/
theorem containsHeader_cons (X : String) (l : DocLine) (ls : List DocLine) :
    containsHeader X (l :: ls)
      = if l = DocLine.header X then true else containsHeader X ls := rfl

/-- Unfold equation for `extractSection` on a cons cell. -/
theorem extractSection_cons (X : String) (l : DocLine) (ls : List DocLine) :
    extractSection X (l :: ls)
      = if l = DocLine.header X then
          some (l :: ls.takeWhile (fun x => !isBoundary x))
        else extractSection X ls := rfl

/-- A marker line is a boundary. -/
theorem isBoundary_of_isMarker (l : DocLine) (h : isMarker l = true) :
    isBoundary l = true := by
  cases l <;> simp [isMarker, isBoundary] at h ⊢

/-- `dropWhile` is idempotent. -/
theorem dropWhile_idem {α : Type} (p : α → Bool) (l : List α) :
    (l.dropWhile p).dropWhile p = l.dropWhile p := by
  induction l with
  | nil => rfl
  | cons a l ih =>
    by_cases h : p a
    · simp [List.dropWhile_cons_of_pos h, ih]
    · simp [List.dropWhile_cons_of_neg h]

/-- Dropping a section body twice is the same as dropping it once. -/
theorem dropSectionBody_idem (ls : List DocLine) :
    dropSectionBody (dropSectionBody ls) = dropSectionBody ls :=
  dropWhile_idem _ ls

/-- Dropping a section body skips over any run of non-boundary lines. -/
theorem dropSectionBody_append (body z : List DocLine)
    (hbody : ∀ l ∈ body, isBoundary l = false) :
    dropSectionBody (body ++ z) = dropSectionBody z := by
  have hpos : ∀ l ∈ body, (!isBoundary l) = true := by
    intro l hl
    simp [hbody l hl]
  simp only [dropSectionBody]
  exact List.dropWhile_append_of_pos hpos

/-- When the line list starts with a boundary (or is empty), its section
body is empty. -/
theorem takeWhile_eq_nil_of_headBoundary (rest : List DocLine)
    (h : headBoundary rest = true) :
    rest.takeWhile (fun l => !isBoundary l) = [] := by
  cases rest with
  | nil => rfl
  | cons l ls =>
    have hb : isBoundary l = true := h
    simp [List.takeWhile_cons, hb]

/-- When the line list starts with a boundary (or is empty), dropping
its section body is the identity. -/
theorem dropWhile_eq_self_of_headBoundary (rest : List DocLine)
    (h : headBoundary rest = true) :
    rest.dropWhile (fun l => !isBoundary l) = rest := by
  cases rest with
  | nil => rfl
  | cons l ls =>
    have hb : isBoundary l = true := h
    simp [List.dropWhile_cons, hb]

/-- The boundary test on a header line. -/
theorem isBoundary_header (c : String) :
    isBoundary (DocLine.header c) = true := rfl

/-- The boundary test on a marker line. -/
theorem isBoundary_marker (t : String) :
    isBoundary (DocLine.marker t) = true := rfl

/-- The boundary test on each line constructor. -/
theorem isBoundary_textLine (t : String) :
    isBoundary (DocLine.textLine t) = false := rfl

/-- The boundary test on a status line. -/
theorem isBoundary_statusLine (st : Status) (sc : Nat) :
    isBoundary (DocLine.statusLine st sc) = false := rfl

/-- The boundary test on a counts line. -/
theorem isBoundary_countsLine (a b d : Nat) :
    isBoundary (DocLine.countsLine a b d) = false := rfl

/-- The parser maps the empty document to no sections. -/
theorem parseSections_nil : parseSections [] = [] := by
  simp [parseSections]

/-- The parser skips a leading free-text line. -/
theorem parseSections_textLine (t : String) (ls : List DocLine) :
    parseSections (DocLine.textLine t :: ls) = parseSections ls := by
  simp [parseSections]

/-- The parser skips a leading marker line. -/
theorem parseSections_marker (t : String) (ls : List DocLine) :
    parseSections (DocLine.marker t :: ls) = parseSections ls := by
  simp [parseSections]

/-- Parsing a freshly rendered section followed by a boundary recovers
exactly the rendered category, status, score and counts. -/
theorem parseSections_renderSection_append (ts X : String) (st : Status)
    (c : SeverityCounts) (rest : List DocLine)
    (h : headBoundary rest = true) :
    parseSections (renderSection ts X st c ++ rest)
      = ⟨X, st, healthScore c, c⟩ :: parseSections rest := by
  simp only [renderSection, List.cons_append, List.nil_append]
  rw [parseSections]
  simp [List.takeWhile_cons, List.dropWhile_cons, isBoundary_textLine,
    isBoundary_statusLine, isBoundary_countsLine,
    takeWhile_eq_nil_of_headBoundary rest h,
    dropWhile_eq_self_of_headBoundary rest h]
  rfl

/-- The head of a rendered section run (ending in the closing marker) is
always a boundary line. -/
theorem headBoundary_sections (ts : String)
    (ps : List (String × Status × SeverityCounts)) :
    headBoundary
        (ps.flatMap (fun p => renderSection ts p.1 p.2.1 p.2.2)
          ++ [DocLine.marker ts]) = true := by
  cases ps with
  | nil => rfl
  | cons q qs => rfl

/-- C2: re-parsing a full-mode rendered document reproduces, for every
category, the status and critical/warning/info counts that were
rendered (together with the derived health score). -/
theorem full_mode_round_trip (title ts : String)
    (secs : List (String × Status × SeverityCounts)) :
    parseSections (renderFull title ts secs)
      = secs.map (fun p => ⟨p.1, p.2.1, healthScore p.2.2, p.2.2⟩) := by
  rw [renderFull, parseSections_textLine]
  induction secs with
  | nil =>
    simp only [List.flatMap_nil, List.nil_append, List.map_nil]
    rw [parseSections_marker]
    exact parseSections_nil
  | cons p ps ih =>
    simp only [List.flatMap_cons, List.append_assoc, List.map_cons]
    rw [parseSections_renderSection_append ts p.1 p.2.1 p.2.2 _
      (headBoundary_sections ts ps), ih]

/-- Replacing a section whose rendered text already sits at the front of
the document rewrites it in place and swallows exactly the stale body
that follows. -/
theorem replaceExisting_self_append (X : String) (body z : List DocLine)
    (hbody : ∀ l ∈ body, isBoundary l = false) :
    replaceExisting X (DocLine.header X :: body)
        ((DocLine.header X :: body) ++ z)
      = (DocLine.header X :: body) ++ dropSectionBody z := by
  rw [List.cons_append, replaceExisting_cons, if_pos rfl,
    dropSectionBody_append body z hbody, List.cons_append]

/-- Replacing the same section twice is the same as replacing it once. -/
theorem replaceExisting_idem (X : String) (body doc : List DocLine)
    (hbody : ∀ l ∈ body, isBoundary l = false) :
    replaceExisting X (DocLine.header X :: body)
        (replaceExisting X (DocLine.header X :: body) doc)
      = replaceExisting X (DocLine.header X :: body) doc := by
  induction doc with
  | nil => rfl
  | cons l ls ih =>
    rw [replaceExisting_cons]
    by_cases hl : l = DocLine.header X
    · rw [if_pos hl, replaceExisting_self_append X body _ hbody,
        dropSectionBody_idem]
    · rw [if_neg hl, replaceExisting_cons, if_neg hl, ih]

/-- Replacing a section that was just inserted before the marker leaves
the document unchanged, provided the header was absent before. -/
theorem replaceExisting_insertBeforeMarker (X : String)
    (body doc : List DocLine)
    (hbody : ∀ l ∈ body, isBoundary l = false)
    (hdoc : containsHeader X doc = false) :
    replaceExisting X (DocLine.header X :: body)
        (insertBeforeMarker (DocLine.header X :: body) doc)
      = insertBeforeMarker (DocLine.header X :: body) doc := by
  induction doc with
  | nil =>
    show replaceExisting X (DocLine.header X :: body)
        (DocLine.header X :: body) = DocLine.header X :: body
    rw [replaceExisting_cons, if_pos rfl]
    have hz : dropSectionBody body = [] := by
      rw [dropSectionBody, List.dropWhile_eq_nil_iff]
      intro l hl
      simp [hbody l hl]
    rw [hz, List.append_nil]
  | cons l ls ih =>
    rw [containsHeader_cons] at hdoc
    by_cases hl : l = DocLine.header X
    · rw [if_pos hl] at hdoc
      cases hdoc
    · rw [if_neg hl] at hdoc
      rw [insertBeforeMarker_cons]
      by_cases hm : isMarker l
      · rw [if_pos hm, replaceExisting_self_append X body _ hbody,
          dropSectionBody, List.dropWhile_cons_of_neg
            (by simp [isBoundary_of_isMarker l hm])]
      · rw [if_neg hm, replaceExisting_cons, if_neg hl, ih hdoc]

/-- Inserting a section headed by `X` makes the document contain the
header of `X`. -/
theorem containsHeader_insertBeforeMarker (X : String)
    (body doc : List DocLine) :
    containsHeader X
        (insertBeforeMarker (DocLine.header X :: body) doc) = true := by
  induction doc with
  | nil => simp [insertBeforeMarker, containsHeader_cons]
  | cons l ls ih =>
    rw [insertBeforeMarker_cons]
    by_cases hm : isMarker l
    · rw [if_pos hm, List.cons_append, containsHeader_cons, if_pos rfl]
    · rw [if_neg hm, containsHeader_cons]
      by_cases hl : l = DocLine.header X
      · rw [if_pos hl]
      · rw [if_neg hl]
        exact ih

/-- Replacing the section of `X` keeps the header of `X` present. -/
theorem containsHeader_replaceExisting (X : String)
    (body doc : List DocLine) (hdoc : containsHeader X doc = true) :
    containsHeader X
        (replaceExisting X (DocLine.header X :: body) doc) = true := by
  induction doc with
  | nil => simp [containsHeader] at hdoc
  | cons l ls ih =>
    rw [replaceExisting_cons]
    by_cases hl : l = DocLine.header X
    · rw [if_pos hl, List.cons_append, containsHeader_cons, if_pos rfl]
    · rw [containsHeader_cons, if_neg hl] at hdoc
      rw [if_neg hl, containsHeader_cons, if_neg hl]
      exact ih hdoc

/-- Merging the same rendered section twice is the same as merging it
once, for any prior document. -/
theorem mergeSection_idem (X : String) (body doc : List DocLine)
    (hbody : ∀ l ∈ body, isBoundary l = false) :
    mergeSection X (DocLine.header X :: body)
        (mergeSection X (DocLine.header X :: body) doc)
      = mergeSection X (DocLine.header X :: body) doc := by
  by_cases h : containsHeader X doc = true
  · have hm : mergeSection X (DocLine.header X :: body) doc
        = replaceExisting X (DocLine.header X :: body) doc := by
      rw [mergeSection, if_pos h]
    rw [hm, mergeSection,
      if_pos (containsHeader_replaceExisting X body doc h)]
    exact replaceExisting_idem X body doc hbody
  · have h' : containsHeader X doc = false := by
      cases hcc : containsHeader X doc
      · rfl
      · exact absurd hcc h
    have hm : mergeSection X (DocLine.header X :: body) doc
        = insertBeforeMarker (DocLine.header X :: body) doc := by
      rw [mergeSection, if_neg h]
    rw [hm, mergeSection,
      if_pos (containsHeader_insertBeforeMarker X body doc)]
    exact replaceExisting_insertBeforeMarker X body doc hbody h'

/-- The lines of a rendered section body are never boundaries. -/
theorem renderSection_body_not_boundary (ts X : String) (st : Status)
    (c : SeverityCounts) :
    ∀ l ∈ [DocLine.textLine ("Last updated: " ++ ts),
           DocLine.statusLine st (healthScore c),
           DocLine.countsLine c.critical c.warning c.info,
           DocLine.textLine ("Details: " ++ X ++ "-report.md")],
      isBoundary l = false := by
  intro l hl
  rcases List.mem_cons.mp hl with rfl | hl
  · rfl
  rcases List.mem_cons.mp hl with rfl | hl
  · rfl
  rcases List.mem_cons.mp hl with rfl | hl
  · rfl
  rcases List.mem_cons.mp hl with rfl | hl
  · rfl
  cases hl

/-- Focused-mode document synchronization is idempotent. -/
theorem syncDocument_idem (ts X : String) (st : Status)
    (c : SeverityCounts) (doc : List DocLine) :
    syncDocument ts X st c (syncDocument ts X st c doc)
      = syncDocument ts X st c doc :=
  mergeSection_idem X
    [DocLine.textLine ("Last updated: " ++ ts),
     DocLine.statusLine st (healthScore c),
     DocLine.countsLine c.critical c.warning c.info,
     DocLine.textLine ("Details: " ++ X ++ "-report.md")] doc
    (renderSection_body_not_boundary ts X st c)

/-- Overwriting the findings of a category twice with the same list is
the same as overwriting them once. -/
theorem setFindings_idem (X : String) (fs : List Finding)
    (l : List (String × List Finding)) :
    setFindings X fs (setFindings X fs l) = setFindings X fs l := by
  induction l with
  | nil => simp [setFindings]
  | cons p l ih =>
    obtain ⟨c, g⟩ := p
    by_cases h : c = X
    · simp [setFindings, h]
    · simp [setFindings, h, ih]

/-- The findings table stored in a derived snapshot. -/
theorem snapshotOfDoc_findings (doc : List DocLine)
    (f : List (String × List Finding)) :
    (snapshotOfDoc doc f).findingsByCategory = f := rfl

/-- C1: running focused-mode synchronization twice in a row with the
same checker output (same category, status, counts, findings, and
timestamp — no underlying code change) yields exactly the same document
and snapshot on the second run. -/
theorem focused_sync_idempotent (title ts X : String) (st : Status)
    (c : SeverityCounts) (fs : List Finding) (prior : Option ReportState) :
    syncRun title ts X st c fs (some (syncRun title ts X st c fs prior))
      = syncRun title ts X st c fs prior := by
  simp only [syncRun, snapshotOfDoc_findings]
  rw [syncDocument_idem, setFindings_idem]

/-- Scanning for a section skips any prefix that contains no matching
header. -/
theorem extractSection_append_none (Y : String) (pre rest : List DocLine)
    (h : ∀ l ∈ pre, l ≠ DocLine.header Y) :
    extractSection Y (pre ++ rest) = extractSection Y rest := by
  induction pre with
  | nil => rfl
  | cons l ls ih =>
    rw [List.cons_append, extractSection_cons,
      if_neg (h l (List.mem_cons_self l ls)),
      ih (fun x hx => h x (List.mem_cons_of_mem l hx))]

/-- A line run without the matching header yields no section. -/
theorem extractSection_eq_none (Y : String) (pre : List DocLine)
    (h : ∀ l ∈ pre, l ≠ DocLine.header Y) :
    extractSection Y pre = none := by
  have h2 := extractSection_append_none Y pre [] h
  simpa using h2

/-- Dropping a section body does not affect which section is found. -/
theorem extractSection_dropSectionBody (Y : String) (ls : List DocLine) :
    extractSection Y (dropSectionBody ls) = extractSection Y ls := by
  induction ls with
  | nil => rfl
  | cons l ls ih =>
    by_cases hb : isBoundary l
    · rw [dropSectionBody, List.dropWhile_cons_of_neg (by simp [hb])]
    · have hl : l ≠ DocLine.header Y := by
        intro he
        rw [he] at hb
        exact hb rfl
      rw [dropSectionBody, List.dropWhile_cons_of_pos (by simp [hb]),
        extractSection_cons, if_neg hl]
      exact ih

/-- A rendered section carries no foreign header. -/
theorem new_section_no_foreign_header (X Y : String)
    (body : List DocLine) (hne : Y ≠ X)
    (hbody : ∀ l ∈ body, isBoundary l = false) :
    ∀ l ∈ DocLine.header X :: body, l ≠ DocLine.header Y := by
  intro l hl
  rcases List.mem_cons.mp hl with rfl | hb
  · intro he
    injection he with hxy
    exact hne hxy.symm
  · intro he
    have hf := hbody l hb
    rw [he] at hf
    cases hf

/-- Inserting a section before the marker does not change the body of
any section already present. -/
theorem takeWhile_insertBeforeMarker (X : String)
    (body ls : List DocLine) :
    (insertBeforeMarker (DocLine.header X :: body) ls).takeWhile
        (fun l => !isBoundary l)
      = ls.takeWhile (fun l => !isBoundary l) := by
  induction ls with
  | nil => simp [insertBeforeMarker, List.takeWhile_cons, isBoundary_header]
  | cons l ls ih =>
    rw [insertBeforeMarker_cons]
    by_cases hm : isMarker l
    · rw [if_pos hm, List.cons_append]
      have hbl : isBoundary l = true := isBoundary_of_isMarker l hm
      simp [List.takeWhile_cons, hbl, isBoundary_header]
    · rw [if_neg hm]
      by_cases hb : isBoundary l
      · simp [List.takeWhile_cons, hb]
      · simp [List.takeWhile_cons, hb, ih]

/-- Replacing the section of `X` does not change the body of sections
while scanning past non-`X` lines. -/
theorem takeWhile_replaceExisting (X : String) (body ls : List DocLine) :
    (replaceExisting X (DocLine.header X :: body) ls).takeWhile
        (fun l => !isBoundary l)
      = ls.takeWhile (fun l => !isBoundary l) := by
  induction ls with
  | nil => rfl
  | cons l ls ih =>
    rw [replaceExisting_cons]
    by_cases hl : l = DocLine.header X
    · rw [if_pos hl, List.cons_append, hl]
      simp [List.takeWhile_cons, isBoundary_header]
    · rw [if_neg hl]
      by_cases hb : isBoundary l
      · simp [List.takeWhile_cons, hb]
      · simp [List.takeWhile_cons, hb, ih]

/-- Inserting the rendered section of `X` before the closing marker
leaves the rendered text of every other category's section unchanged. -/
theorem extractSection_insertBeforeMarker (X Y : String)
    (body doc : List DocLine) (hne : Y ≠ X)
    (hbody : ∀ l ∈ body, isBoundary l = false) :
    extractSection Y (insertBeforeMarker (DocLine.header X :: body) doc)
      = extractSection Y doc := by
  have hnoY := new_section_no_foreign_header X Y body hne hbody
  induction doc with
  | nil =>
    rw [show insertBeforeMarker (DocLine.header X :: body) []
        = DocLine.header X :: body from rfl]
    rw [extractSection_eq_none Y _ hnoY]
    rfl
  | cons l ls ih =>
    rw [insertBeforeMarker_cons]
    by_cases hm : isMarker l
    · rw [if_pos hm, extractSection_append_none Y _ _ hnoY]
    · rw [if_neg hm]
      simp only [extractSection_cons]
      by_cases hl : l = DocLine.header Y
      · rw [if_pos hl, if_pos hl, takeWhile_insertBeforeMarker]
      · rw [if_neg hl, if_neg hl]
        exact ih

/-- Replacing the section of `X` leaves the rendered text of every
other category's section unchanged. -/
theorem extractSection_replaceExisting (X Y : String)
    (body doc : List DocLine) (hne : Y ≠ X)
    (hbody : ∀ l ∈ body, isBoundary l = false) :
    extractSection Y (replaceExisting X (DocLine.header X :: body) doc)
      = extractSection Y doc := by
  have hnoY := new_section_no_foreign_header X Y body hne hbody
  induction doc with
  | nil => rfl
  | cons l ls ih =>
    rw [replaceExisting_cons]
    by_cases hl : l = DocLine.header X
    · rw [if_pos hl, extractSection_append_none Y _ _ hnoY,
        extractSection_dropSectionBody]
      have hlY : l ≠ DocLine.header Y := by
        rw [hl]
        intro he
        injection he with hxy
        exact hne hxy.symm
      rw [extractSection_cons, if_neg hlY]
    · rw [if_neg hl]
      simp only [extractSection_cons]
      by_cases hlY : l = DocLine.header Y
      · rw [if_pos hlY, if_pos hlY, takeWhile_replaceExisting]
      · rw [if_neg hlY, if_neg hlY]
        exact ih

/-- C3: focused-mode synchronization for category X leaves the rendered
text (header plus body) of every other category's section byte-for-byte
unchanged in the document. -/
theorem focused_sync_frame (ts X Y : String) (st : Status)
    (c : SeverityCounts) (doc : List DocLine) (hne : Y ≠ X) :
    extractSection Y (syncDocument ts X st c doc)
      = extractSection Y doc := by
  have hbody := renderSection_body_not_boundary ts X st c
  show extractSection Y
      (mergeSection X
        (DocLine.header X ::
          [DocLine.textLine ("Last updated: " ++ ts),
           DocLine.statusLine st (healthScore c),
           DocLine.countsLine c.critical c.warning c.info,
           DocLine.textLine ("Details: " ++ X ++ "-report.md")]) doc)
    = extractSection Y doc
  rw [mergeSection]
  by_cases h : containsHeader X doc = true
  · rw [if_pos h]
    exact extractSection_replaceExisting X Y _ doc hne hbody
  · rw [if_neg h]
    exact extractSection_insertBeforeMarker X Y _ doc hne hbody

/-- Witness for C3: syncing "security" into a document holding a
"quality" section leaves the "quality" section text unchanged. -/
theorem focused_sync_frame_witness :
    extractSection "quality"
        (syncDocument "t" "security" Status.pass ⟨0, 0, 0⟩
          [DocLine.header "quality", DocLine.textLine "body",
           DocLine.marker "m"])
      = extractSection "quality"
          [DocLine.header "quality", DocLine.textLine "body",
           DocLine.marker "m"] :=
  focused_sync_frame "t" "security" "quality" Status.pass ⟨0, 0, 0⟩
    [DocLine.header "quality", DocLine.textLine "body",
     DocLine.marker "m"] (by decide)

end ZuZu
